import Mathlib

/-!
Shallow embedding of the aerichan.xyz dashboard sources.

JavaScript strings are modelled as `List Char` (UTF-16 code-unit sequences;
the app only manipulates them as opaque sequences).  JavaScript numbers that
the widgets serialise are integral, so JSON numbers are modelled as `Int`.
Browser / platform primitives (`localStorage`, `fetch`, the Upstash Redis
client, `Date`) are external to the repository; they are modelled by explicit
state (association lists) and oracle parameters, with the JS semantics of the
calls that the sources make.
-/

namespace Aerichan

/-- JavaScript string, as a list of UTF-16 code units. -/
abbrev JStr := List Char

/-- Lexicographic strict comparison of code-unit lists, as JavaScript `<`
on strings compares code units. -/
def jsLtL : JStr → JStr → Bool
  | [], [] => false
  | [], _ :: _ => true
  | _ :: _, [] => false
  | a :: as, b :: bs =>
    if a.val < b.val then true
    else if b.val < a.val then false
    else jsLtL as bs

/-- JavaScript `a <= b` on strings: not `b < a`. -/
def jsLeL (a b : JStr) : Bool := !(jsLtL b a)

/-- JavaScript `a <= b` on Lean `String`s, comparing code units. -/
def jsLe (a b : String) : Bool := jsLeL a.data b.data

/-- JavaScript `a < b` on Lean `String`s, comparing code units. -/
def jsLt (a b : String) : Bool := jsLtL a.data b.data

/-! ### Association lists (used to model `localStorage`, the Redis store
and `URLSearchParams`) -/

/-- Lookup in an association list (first binding wins), the model of reading
from a key-value store. -/
def alookup {α : Type} : List (String × α) → String → Option α
  | [], _ => none
  | (k, v) :: rest, key => if k = key then some v else alookup rest key

/-- Overwrite-or-append in an association list, the model of writing to a
key-value store (`localStorage.setItem`, `redis.set`, `URLSearchParams.set`). -/
def aset {α : Type} : List (String × α) → String → α → List (String × α)
  | [], key, v => [(key, v)]
  | (k, w) :: rest, key, v =>
    if k = key then (k, v) :: rest else (k, w) :: aset rest key v

/-- Remove a key from an association list (`localStorage.removeItem`). -/
def aremove {α : Type} : List (String × α) → String → List (String × α)
  | [], _ => []
  | (k, w) :: rest, key =>
    if k = key then aremove rest key else (k, w) :: aremove rest key

theorem alookup_aset_self {α : Type} (l : List (String × α)) (k : String) (v : α) :
    alookup (aset l k v) k = some v := by
  induction l with
  | nil => simp [aset, alookup]
  | cons hd tl ih =>
    obtain ⟨k', w⟩ := hd
    by_cases h : k' = k <;> simp [aset, alookup, h, ih]

/-! ### JSON values

`JSValue` models the JSON-serialisable JavaScript values the app stores:
`null`, booleans, (integral) numbers, strings, arrays and plain objects.
Arrays and objects are mutually inductive lists so that structural recursion
and induction are available. -/

mutual
inductive JSValue : Type where
  | null : JSValue
  | bool (b : Bool) : JSValue
  | num (n : Int) : JSValue
  | str (s : JStr) : JSValue
  | arr (xs : JSArray) : JSValue
  | obj (fs : JSObject) : JSValue
  deriving DecidableEq

inductive JSArray : Type where
  | nil : JSArray
  | cons (hd : JSValue) (tl : JSArray) : JSArray
  deriving DecidableEq

inductive JSObject : Type where
  | nil : JSObject
  | cons (key : JStr) (val : JSValue) (tl : JSObject) : JSObject
  deriving DecidableEq
end

/-- JavaScript truthiness of a JSON value (`!data` tests in the sources). -/
def jsTruthy : JSValue → Bool
  | .null => false
  | .bool b => b
  | .num n => n ≠ 0
  | .str s => s ≠ []
  | .arr _ => true
  | .obj _ => true

/-- Whether `typeof v === 'object'` holds in JavaScript: objects, arrays and
`null`. -/
def typeofIsObject : JSValue → Bool
  | .null => true
  | .arr _ => true
  | .obj _ => true
  | _ => false

/-! ### `JSON.stringify` for the modelled values -/

/-- Decimal digit character for `d < 10`. -/
def digitChar : Nat → Char
  | 0 => '0' | 1 => '1' | 2 => '2' | 3 => '3' | 4 => '4'
  | 5 => '5' | 6 => '6' | 7 => '7' | 8 => '8' | _ => '9'

/-- Hexadecimal digit character (lower case) for `d < 16`. -/
def hexChar : Nat → Char
  | 0 => '0' | 1 => '1' | 2 => '2' | 3 => '3' | 4 => '4'
  | 5 => '5' | 6 => '6' | 7 => '7' | 8 => '8' | 9 => '9'
  | 10 => 'a' | 11 => 'b' | 12 => 'c' | 13 => 'd' | 14 => 'e' | _ => 'f'

/-- Decimal digits of `n`, most significant first, prepended to `acc`. -/
def natCharsAux (n : Nat) (acc : List Char) : List Char :=
  if h : n < 10 then digitChar n :: acc
  else natCharsAux (n / 10) (digitChar (n % 10) :: acc)
  termination_by n
  decreasing_by exact Nat.div_lt_self (by omega) (by omega)

/-- Decimal representation of a natural number. -/
def natChars (n : Nat) : List Char := natCharsAux n []

/-- Decimal representation of an integer (JS number serialisation for
integral numbers). -/
def intChars (i : Int) : List Char :=
  if i < 0 then '-' :: natChars i.natAbs else natChars i.toNat

/-- Escape one character as `JSON.stringify` does: `"` and `\` get a
backslash, the five short control escapes are used, other control characters
become `\u00XX`, and all other characters are copied. -/
def escapeChar (c : Char) : List Char :=
  if c = '"' then ['\\', '"']
  else if c = '\\' then ['\\', '\\']
  else if c = '\x08' then ['\\', 'b']
  else if c = '\t' then ['\\', 't']
  else if c = '\n' then ['\\', 'n']
  else if c = '\x0c' then ['\\', 'f']
  else if c = '\r' then ['\\', 'r']
  else if c.val < 32 then
    ['\\', 'u', '0', '0', hexChar (c.toNat / 16), hexChar (c.toNat % 16)]
  else [c]

/-- The serialised `null` keyword. -/
def litNull : List Char := ['n', 'u', 'l', 'l']

/-- The serialised `true` keyword. -/
def litTrue : List Char := ['t', 'r', 'u', 'e']

/-- The serialised `false` keyword. -/
def litFalse : List Char := ['f', 'a', 'l', 's', 'e']

/-- Escape a whole string body. -/
def escapeStr : JStr → List Char
  | [] => []
  | c :: cs => escapeChar c ++ escapeStr cs

mutual
/-- `JSON.stringify` of a value (no whitespace, as `JSON.stringify(v)` with
no spacing argument). -/
def stringifyV : JSValue → List Char
  | .null => litNull
  | .bool true => litTrue
  | .bool false => litFalse
  | .num n => intChars n
  | .str s => '"' :: escapeStr s ++ ['"']
  | .arr .nil => ['[', ']']
  | .arr (.cons v tl) => '[' :: (stringifyV v ++ stringifyRestA tl) ++ [']']
  | .obj .nil => ['{', '}']
  | .obj (.cons k v tl) =>
      '{' :: ('"' :: escapeStr k ++ '"' :: ':' :: stringifyV v ++
        stringifyRestO tl) ++ ['}']

/-- Serialisation of the remaining array items, each preceded by a comma. -/
def stringifyRestA : JSArray → List Char
  | .nil => []
  | .cons v tl => ',' :: stringifyV v ++ stringifyRestA tl

/-- Serialisation of the remaining object fields, each preceded by a comma. -/
def stringifyRestO : JSObject → List Char
  | .nil => []
  | .cons k v tl =>
      ',' :: '"' :: escapeStr k ++ '"' :: ':' :: stringifyV v ++
        stringifyRestO tl
end

/-! ### `JSON.parse` for the modelled values

The parser accepts exactly the whitespace-free JSON that `stringifyV`
produces (plus the usual escape forms); `JSON.parse`'s tolerance for
whitespace and float syntax is outside the fragment the app serialises. -/

/-- Consume an expected literal character sequence. -/
def dropLit : List Char → List Char → Option (List Char)
  | [], input => some input
  | _ :: _, [] => none
  | c :: cs, d :: input => if d = c then dropLit cs input else none

/-- Value of a hexadecimal digit character. -/
def hexVal (c : Char) : Option Nat :=
  if c.isDigit then some (c.toNat - 48)
  else if 'a' ≤ c ∧ c ≤ 'f' then some (c.toNat - 87)
  else if 'A' ≤ c ∧ c ≤ 'F' then some (c.toNat - 55)
  else none

/-- Single-character JSON escapes (the character after a backslash). -/
def unescapeChar (c : Char) : Option Char :=
  if c = '"' then some '"'
  else if c = '\\' then some '\\'
  else if c = '/' then some '/'
  else if c = 'b' then some '\x08'
  else if c = 'f' then some '\x0c'
  else if c = 'n' then some '\n'
  else if c = 'r' then some '\r'
  else if c = 't' then some '\t'
  else none

/-- Parse the body of a JSON string (after the opening quote), returning the
decoded characters and the input after the closing quote. -/
def parseStrBody : List Char → Option (JStr × List Char)
  | [] => none
  | c :: rest =>
    if c = '"' then some ([], rest)
    else if c = '\\' then
      match rest with
      | [] => none
      | e :: rest2 =>
        if e = 'u' then
          match rest2 with
          | h1 :: h2 :: h3 :: h4 :: rest3 =>
            match hexVal h1, hexVal h2, hexVal h3, hexVal h4 with
            | some a, some b, some x, some y =>
                (parseStrBody rest3).map
                  (fun p => (Char.ofNat (((a * 16 + b) * 16 + x) * 16 + y) :: p.1, p.2))
            | _, _, _, _ => none
          | _ => none
        else
          (unescapeChar e).bind fun ch =>
            (parseStrBody rest2).map (fun p => (ch :: p.1, p.2))
    else if c.val < 32 then none
    else (parseStrBody rest).map (fun p => (c :: p.1, p.2))

/-- Greedily consume decimal digits, extending the accumulator. -/
def parseNatAux : Nat → List Char → Nat × List Char
  | acc, [] => (acc, [])
  | acc, c :: rest =>
    if c.isDigit then parseNatAux (acc * 10 + (c.toNat - 48)) rest
    else (acc, c :: rest)

/-- Whether the input starts with a decimal digit. -/
def startsDigit : List Char → Bool
  | [] => false
  | c :: _ => c.isDigit

mutual
/-- Parse one JSON value; `fuel` bounds the nesting work. -/
def parseVal : Nat → List Char → Option (JSValue × List Char)
  | 0, _ => none
  | _ + 1, [] => none
  | fuel + 1, c :: rest =>
    if c = 'n' then (dropLit ['u', 'l', 'l'] rest).map (fun r => (.null, r))
    else if c = 't' then (dropLit ['r', 'u', 'e'] rest).map (fun r => (.bool true, r))
    else if c = 'f' then (dropLit ['a', 'l', 's', 'e'] rest).map (fun r => (.bool false, r))
    else if c = '"' then (parseStrBody rest).map (fun p => (.str p.1, p.2))
    else if c = '[' then
      match rest with
      | [] => none
      | r1 :: r' =>
        if r1 = ']' then some (.arr .nil, r')
        else (parseItems fuel (r1 :: r')).map (fun p => (.arr p.1, p.2))
    else if c = '{' then
      match rest with
      | [] => none
      | r1 :: r' =>
        if r1 = '}' then some (.obj .nil, r')
        else (parseFields fuel (r1 :: r')).map (fun p => (.obj p.1, p.2))
    else if c = '-' then
      match rest with
      | [] => none
      | d :: rest2 =>
        if d.isDigit then
          let p := parseNatAux 0 (d :: rest2)
          some (.num (-(p.1 : Int)), p.2)
        else none
    else if c.isDigit then
      let p := parseNatAux 0 (c :: rest)
      some (.num (p.1 : Int), p.2)
    else none

/-- Parse the comma-separated items of a non-empty JSON array, up to and
including the closing bracket. -/
def parseItems : Nat → List Char → Option (JSArray × List Char)
  | 0, _ => none
  | fuel + 1, input =>
    (parseVal fuel input).bind fun p =>
      match p.2 with
      | [] => none
      | c :: r =>
        if c = ',' then (parseItems fuel r).map (fun q => (.cons p.1 q.1, q.2))
        else if c = ']' then some (.cons p.1 .nil, r)
        else none

/-- Parse the comma-separated fields of a non-empty JSON object, up to and
including the closing brace. -/
def parseFields : Nat → List Char → Option (JSObject × List Char)
  | 0, _ => none
  | fuel + 1, input =>
    match input with
    | [] => none
    | c :: r =>
      if c = '"' then
        (parseStrBody r).bind fun pk =>
          match pk.2 with
          | [] => none
          | c2 :: r2 =>
            if c2 = ':' then
              (parseVal fuel r2).bind fun pv =>
                match pv.2 with
                | [] => none
                | c3 :: r3 =>
                  if c3 = ',' then
                    (parseFields fuel r3).map (fun q => (.cons pk.1 pv.1 q.1, q.2))
                  else if c3 = '}' then some (.cons pk.1 pv.1 .nil, r3)
                  else none
            else none
      else none
end

/-- Model of `JSON.parse`: parse a whole string to a value, requiring all
input to be consumed; `none` models a thrown `SyntaxError`. -/
def parseJson (s : JStr) : Option JSValue :=
  match parseVal (s.length + 1) s with
  | some (v, []) => some v
  | _ => none

/-! ### Round trip: `parseJson` is a left inverse of `stringifyV` -/

/-- Number of decimal digits `natChars` produces. -/
def numDigits (n : Nat) : Nat :=
  if h : n < 10 then 1 else numDigits (n / 10) + 1
  termination_by n
  decreasing_by exact Nat.div_lt_self (by omega) (by omega)

theorem dropLit_self (lit rest : List Char) : dropLit lit (lit ++ rest) = some rest := by
  induction lit with
  | nil => rfl
  | cons c cs ih => simp [dropLit, ih]

theorem digitChar_isDigit {d : Nat} (h : d < 10) : (digitChar d).isDigit = true := by
  interval_cases d <;> decide

theorem digitChar_sub48 {d : Nat} (h : d < 10) : (digitChar d).toNat - 48 = d := by
  interval_cases d <;> decide

theorem ne_of_digit {c x : Char} (h : c.isDigit = true) (hx : x.isDigit = false) :
    c ≠ x := by
  rintro rfl; rw [h] at hx; exact Bool.noConfusion hx

theorem natCharsAux_lt {n : Nat} (h : n < 10) (acc : List Char) :
    natCharsAux n acc = digitChar n :: acc := by
  rw [natCharsAux]; simp [h]

theorem natCharsAux_ge {n : Nat} (h : ¬ n < 10) (acc : List Char) :
    natCharsAux n acc = natCharsAux (n / 10) (digitChar (n % 10) :: acc) := by
  conv_lhs => rw [natCharsAux]
  simp [h]

theorem numDigits_lt {n : Nat} (h : n < 10) : numDigits n = 1 := by
  rw [numDigits]; simp [h]

theorem numDigits_ge {n : Nat} (h : ¬ n < 10) : numDigits n = numDigits (n / 10) + 1 := by
  conv_lhs => rw [numDigits]
  simp [h]

theorem natCharsAux_eq (n : Nat) : ∀ acc, natCharsAux n acc = natChars n ++ acc := by
  induction n using Nat.strong_induction_on with
  | _ n ih =>
    intro acc
    by_cases h : n < 10
    · rw [natCharsAux_lt h, natChars, natCharsAux_lt h]; rfl
    · have hdiv : n / 10 < n := Nat.div_lt_self (by omega) (by omega)
      rw [natCharsAux_ge h, natChars, natCharsAux_ge h, ih (n / 10) hdiv, ih (n / 10) hdiv]
      simp

theorem natChars_cons (n : Nat) : ∃ d tail, d < 10 ∧ natChars n = digitChar d :: tail := by
  induction n using Nat.strong_induction_on with
  | _ n ih =>
    by_cases h : n < 10
    · exact ⟨n, [], h, by rw [natChars, natCharsAux_lt h]⟩
    · have hdiv : n / 10 < n := Nat.div_lt_self (by omega) (by omega)
      obtain ⟨d, t, hd, ht⟩ := ih (n / 10) hdiv
      refine ⟨d, t ++ [digitChar (n % 10)], hd, ?_⟩
      rw [natChars, natCharsAux_ge h, natCharsAux_eq, ht]
      simp

theorem parseNatAux_natCharsAux (n : Nat) :
    ∀ acc tail, parseNatAux acc (natCharsAux n tail) =
      parseNatAux (acc * 10 ^ numDigits n + n) tail := by
  induction n using Nat.strong_induction_on with
  | _ n ih =>
    intro acc tail
    by_cases h : n < 10
    · rw [natCharsAux_lt h, numDigits_lt h, parseNatAux]
      simp [digitChar_isDigit h, digitChar_sub48 h]
    · have hdiv : n / 10 < n := Nat.div_lt_self (by omega) (by omega)
      have hmod : n % 10 < 10 := Nat.mod_lt n (by omega)
      rw [natCharsAux_ge h, numDigits_ge h, ih (n / 10) hdiv, parseNatAux]
      simp only [digitChar_isDigit hmod, if_true, digitChar_sub48 hmod]
      congr 1
      rw [pow_succ]
      have hnm : n / 10 * 10 + n % 10 = n := by omega
      ring_nf
      omega

theorem parseNatAux_stop {tail : List Char} (a : Nat) (h : startsDigit tail = false) :
    parseNatAux a tail = (a, tail) := by
  cases tail with
  | nil => rfl
  | cons c r =>
    rw [startsDigit] at h
    rw [parseNatAux, h]
    simp

theorem parseNat_natChars (n : Nat) {rest : List Char} (h : startsDigit rest = false) :
    parseNatAux 0 (natChars n ++ rest) = (n, rest) := by
  rw [← natCharsAux_eq, parseNatAux_natCharsAux]
  simpa using parseNatAux_stop n h

theorem hexVal_hexChar {h : Nat} (hh : h < 16) : hexVal (hexChar h) = some h := by
  interval_cases h <;> decide

theorem parseStrBody_escape : ∀ (s : JStr) (rest : List Char),
    parseStrBody (escapeStr s ++ '"' :: rest) = some (s, rest) := by
  intro s
  induction s with
  | nil =>
    intro rest
    rw [escapeStr, List.nil_append, parseStrBody.eq_def]
    simp +decide
  | cons c cs ih =>
    intro rest
    rw [escapeStr, List.append_assoc]
    by_cases h1 : c = '"'
    · subst h1
      simp +decide only [escapeChar, List.cons_append, List.nil_append]
      rw [parseStrBody.eq_def]
      simp +decide [unescapeChar, ih rest]
    · by_cases h2 : c = '\\'
      · subst h2
        simp +decide only [escapeChar, List.cons_append, List.nil_append]
        rw [parseStrBody.eq_def]
        simp +decide [unescapeChar, ih rest]
      · by_cases h3 : c = '\x08'
        · subst h3
          simp +decide only [escapeChar, List.cons_append, List.nil_append]
          rw [parseStrBody.eq_def]
          simp +decide [unescapeChar, ih rest]
        · by_cases h4 : c = '\t'
          · subst h4
            simp +decide only [escapeChar, List.cons_append, List.nil_append]
            rw [parseStrBody.eq_def]
            simp +decide [unescapeChar, ih rest]
          · by_cases h5 : c = '\n'
            · subst h5
              simp +decide only [escapeChar, List.cons_append, List.nil_append]
              rw [parseStrBody.eq_def]
              simp +decide [unescapeChar, ih rest]
            · by_cases h6 : c = '\x0c'
              · subst h6
                simp +decide only [escapeChar, List.cons_append, List.nil_append]
                rw [parseStrBody.eq_def]
                simp +decide [unescapeChar, ih rest]
              · by_cases h7 : c = '\r'
                · subst h7
                  simp +decide only [escapeChar, List.cons_append, List.nil_append]
                  rw [parseStrBody.eq_def]
                  simp +decide [unescapeChar, ih rest]
                · by_cases h8 : c.val < 32
                  · have hlt : c.toNat < 32 := h8
                    have hhi : c.toNat / 16 < 16 := by omega
                    have hlo : c.toNat % 16 < 16 := by omega
                    simp only [escapeChar, if_neg h1, if_neg h2, if_neg h3, if_neg h4,
                      if_neg h5, if_neg h6, if_neg h7, if_pos h8, List.cons_append,
                      List.nil_append]
                    rw [parseStrBody.eq_def]
                    simp +decide only []
                    rw [show hexVal '0' = some 0 from by decide, hexVal_hexChar hhi,
                      hexVal_hexChar hlo]
                    simp only [ih rest]
                    have hcode : ((0 * 16 + 0) * 16 + c.toNat / 16) * 16 + c.toNat % 16 =
                        c.toNat := by omega
                    rw [hcode, Char.ofNat_toNat]
                    rfl
                  · simp only [escapeChar, if_neg h1, if_neg h2, if_neg h3, if_neg h4,
                      if_neg h5, if_neg h6, if_neg h7, if_neg h8, List.cons_append,
                      List.nil_append]
                    rw [parseStrBody.eq_def]
                    simp only [if_neg h1, if_neg h2, if_neg h8, ih rest]
                    rfl

theorem parseVal_dash (fuel : Nat) (d : Char) (rest2 : List Char) :
    parseVal (fuel + 1) ('-' :: d :: rest2) =
      (if d.isDigit then
        let p := parseNatAux 0 (d :: rest2)
        some (.num (-(p.1 : Int)), p.2)
       else none) := rfl

theorem parseVal_lbracket (fuel : Nat) (r1 : Char) (r' : List Char) :
    parseVal (fuel + 1) ('[' :: r1 :: r') =
      (if r1 = ']' then some (.arr .nil, r')
       else (parseItems fuel (r1 :: r')).map (fun p => (.arr p.1, p.2))) := rfl

theorem parseVal_lbrace (fuel : Nat) (r1 : Char) (r' : List Char) :
    parseVal (fuel + 1) ('{' :: r1 :: r') =
      (if r1 = '}' then some (.obj .nil, r')
       else (parseFields fuel (r1 :: r')).map (fun p => (.obj p.1, p.2))) := rfl

theorem parseVal_digitChar {d : Nat} (hd : d < 10) (fuel : Nat) (rest : List Char) :
    parseVal (fuel + 1) (digitChar d :: rest) =
      some (.num ((parseNatAux 0 (digitChar d :: rest)).1 : Int),
        (parseNatAux 0 (digitChar d :: rest)).2) := by
  interval_cases d <;> rfl

theorem stringifyV_head (v : JSValue) :
    ∃ c cs, stringifyV v = c :: cs ∧ c ≠ ']' ∧ c ≠ '}' := by
  cases v with
  | null => exact ⟨'n', _, rfl, by decide, by decide⟩
  | bool b => cases b with
    | true => exact ⟨'t', _, rfl, by decide, by decide⟩
    | false => exact ⟨'f', _, rfl, by decide, by decide⟩
  | num n =>
    by_cases hneg : n < 0
    · exact ⟨'-', _, by rw [show stringifyV (.num n) = intChars n from rfl, intChars,
        if_pos hneg], by decide, by decide⟩
    · obtain ⟨d, t, hd, ht⟩ := natChars_cons n.toNat
      refine ⟨digitChar d, t, ?_, ?_, ?_⟩
      · rw [show stringifyV (.num n) = intChars n from rfl, intChars, if_neg hneg, ht]
      · interval_cases d <;> decide
      · interval_cases d <;> decide
  | str s => exact ⟨'"', _, rfl, by decide, by decide⟩
  | arr xs => cases xs with
    | nil => exact ⟨'[', _, rfl, by decide, by decide⟩
    | cons v tl => exact ⟨'[', _, rfl, by decide, by decide⟩
  | obj fs => cases fs with
    | nil => exact ⟨'{', _, rfl, by decide, by decide⟩
    | cons k v tl => exact ⟨'{', _, rfl, by decide, by decide⟩

theorem stringifyV_length_pos (v : JSValue) : 1 ≤ (stringifyV v).length := by
  obtain ⟨c, cs, hv, -, -⟩ := stringifyV_head v
  rw [hv]; simp

theorem startsDigit_restA (tl : JSArray) (rest : List Char) :
    startsDigit (stringifyRestA tl ++ ']' :: rest) = false := by
  cases tl <;> rfl

theorem startsDigit_restO (tl : JSObject) (rest : List Char) :
    startsDigit (stringifyRestO tl ++ '}' :: rest) = false := by
  cases tl <;> rfl

theorem parse_stringify (fuel : Nat) :
    (∀ v rest, (stringifyV v).length ≤ fuel → startsDigit rest = false →
      parseVal fuel (stringifyV v ++ rest) = some (v, rest)) ∧
    (∀ v tl rest, (stringifyV v).length + (stringifyRestA tl).length + 1 ≤ fuel →
      startsDigit rest = false →
      parseItems fuel (stringifyV v ++ (stringifyRestA tl ++ ']' :: rest)) =
        some (.cons v tl, rest)) ∧
    (∀ k v tl rest,
      3 + (escapeStr k).length + (stringifyV v).length + (stringifyRestO tl).length ≤ fuel →
      startsDigit rest = false →
      parseFields fuel
        ('"' :: (escapeStr k ++ '"' :: ':' ::
          (stringifyV v ++ (stringifyRestO tl ++ '}' :: rest)))) =
        some (.cons k v tl, rest)) := by
  induction fuel with
  | zero =>
    refine ⟨fun v rest h _ => absurd h ?_, fun v tl rest h _ => absurd h ?_,
      fun k v tl rest h _ => absurd h ?_⟩ <;>
      · have := stringifyV_length_pos v
        omega
  | succ fuel ih =>
    obtain ⟨ihV, ihA, ihO⟩ := ih
    refine ⟨?_, ?_, ?_⟩
    · -- parseVal round trip
      intro v rest hlen hrest
      cases v with
      | null => rfl
      | bool b => cases b <;> rfl
      | num n =>
        by_cases hneg : n < 0
        · rw [show stringifyV (.num n) = intChars n from rfl, intChars, if_pos hneg]
          obtain ⟨d, t, hd, ht⟩ := natChars_cons n.natAbs
          rw [ht, List.cons_append, List.cons_append, parseVal_dash,
            if_pos (digitChar_isDigit hd)]
          have : parseNatAux 0 (digitChar d :: (t ++ rest)) = (n.natAbs, rest) := by
            rw [show digitChar d :: (t ++ rest) = (digitChar d :: t) ++ rest from rfl,
              ← ht]
            exact parseNat_natChars n.natAbs hrest
          rw [this]
          simp only [Option.some.injEq, Prod.mk.injEq, and_true, JSValue.num.injEq]
          omega
        · rw [show stringifyV (.num n) = intChars n from rfl, intChars, if_neg hneg]
          obtain ⟨d, t, hd, ht⟩ := natChars_cons n.toNat
          rw [ht, List.cons_append, parseVal_digitChar hd fuel]
          have : parseNatAux 0 (digitChar d :: (t ++ rest)) = (n.toNat, rest) := by
            rw [show digitChar d :: (t ++ rest) = (digitChar d :: t) ++ rest from rfl,
              ← ht]
            exact parseNat_natChars n.toNat hrest
          rw [this]
          simp only [Option.some.injEq, Prod.mk.injEq, and_true, JSValue.num.injEq]
          omega
      | str s =>
        have hshape : stringifyV (.str s) ++ rest =
            '"' :: (escapeStr s ++ '"' :: rest) := by
          simp [stringifyV]
        rw [hshape, show parseVal (fuel + 1) ('"' :: (escapeStr s ++ '"' :: rest)) =
          (parseStrBody (escapeStr s ++ '"' :: rest)).map (fun p => (.str p.1, p.2))
          from rfl, parseStrBody_escape]
        rfl
      | arr xs =>
        cases xs with
        | nil => rfl
        | cons v tl =>
          have hshape : stringifyV (.arr (.cons v tl)) ++ rest =
              '[' :: (stringifyV v ++ (stringifyRestA tl ++ ']' :: rest)) := by
            simp [stringifyV]
          rw [hshape]
          obtain ⟨c, cs, hv, hne1, hne2⟩ := stringifyV_head v
          rw [hv, List.cons_append, parseVal_lbracket, if_neg hne1, ← List.cons_append,
            ← hv]
          have hbound : (stringifyV v).length + (stringifyRestA tl).length + 1 ≤ fuel := by
            have : (stringifyV (.arr (.cons v tl))).length =
                (stringifyV v).length + (stringifyRestA tl).length + 2 := by
              simp [stringifyV]
              try omega
            omega
          rw [ihA v tl rest hbound hrest]
          rfl
      | obj fs =>
        cases fs with
        | nil => rfl
        | cons k v tl =>
          have hshape : stringifyV (.obj (.cons k v tl)) ++ rest =
              '{' :: '"' :: (escapeStr k ++ '"' :: ':' ::
                (stringifyV v ++ (stringifyRestO tl ++ '}' :: rest))) := by
            simp [stringifyV]
          rw [hshape, parseVal_lbrace, if_neg (show ('"' : Char) ≠ '}' from by decide)]
          have hbound : 3 + (escapeStr k).length + (stringifyV v).length +
              (stringifyRestO tl).length ≤ fuel := by
            have : (stringifyV (.obj (.cons k v tl))).length =
                (escapeStr k).length + (stringifyV v).length +
                  (stringifyRestO tl).length + 5 := by
              simp [stringifyV]
              try omega
            omega
          rw [ihO k v tl rest hbound hrest]
          rfl
    · -- parseItems round trip
      intro v tl rest hlen hrest
      have hV : parseVal fuel (stringifyV v ++ (stringifyRestA tl ++ ']' :: rest)) =
          some (v, stringifyRestA tl ++ ']' :: rest) :=
        ihV v _ (by omega) (startsDigit_restA tl rest)
      rw [show parseItems (fuel + 1) (stringifyV v ++ (stringifyRestA tl ++ ']' :: rest)) =
        (parseVal fuel (stringifyV v ++ (stringifyRestA tl ++ ']' :: rest))).bind
          (fun p => match p.2 with
            | [] => none
            | c :: r =>
              if c = ',' then (parseItems fuel r).map (fun q => (.cons p.1 q.1, q.2))
              else if c = ']' then some (.cons p.1 .nil, r)
              else none) from rfl, hV]
      cases tl with
      | nil => rfl
      | cons w tl' =>
        have hshape : stringifyRestA (.cons w tl') ++ ']' :: rest =
            ',' :: (stringifyV w ++ (stringifyRestA tl' ++ ']' :: rest)) := by
          simp [stringifyRestA]
        rw [hshape]
        have hbound : (stringifyV w).length + (stringifyRestA tl').length + 1 ≤ fuel := by
          have : (stringifyRestA (.cons w tl')).length =
              (stringifyV w).length + (stringifyRestA tl').length + 1 := by
            simp [stringifyRestA]
            try omega
          omega
        simp +decide only [Option.some_bind]
        rw [ihA w tl' rest hbound hrest]
        rfl
    · -- parseFields round trip
      intro k v tl rest hlen hrest
      have hkey : parseStrBody (escapeStr k ++ '"' :: (':' ::
          (stringifyV v ++ (stringifyRestO tl ++ '}' :: rest)))) =
          some (k, ':' :: (stringifyV v ++ (stringifyRestO tl ++ '}' :: rest))) :=
        parseStrBody_escape k _
      have hV : parseVal fuel (stringifyV v ++ (stringifyRestO tl ++ '}' :: rest)) =
          some (v, stringifyRestO tl ++ '}' :: rest) :=
        ihV v _ (by omega) (startsDigit_restO tl rest)
      rw [show parseFields (fuel + 1)
          ('"' :: (escapeStr k ++ '"' :: ':' ::
            (stringifyV v ++ (stringifyRestO tl ++ '}' :: rest)))) =
        (parseStrBody (escapeStr k ++ '"' :: (':' ::
            (stringifyV v ++ (stringifyRestO tl ++ '}' :: rest))))).bind
          (fun pk => match pk.2 with
            | [] => none
            | c2 :: r2 =>
              if c2 = ':' then
                (parseVal fuel r2).bind (fun pv => match pv.2 with
                  | [] => none
                  | c3 :: r3 =>
                    if c3 = ',' then
                      (parseFields fuel r3).map (fun q => (.cons pk.1 pv.1 q.1, q.2))
                    else if c3 = '}' then some (.cons pk.1 pv.1 .nil, r3)
                    else none)
              else none) from rfl, hkey]
      simp +decide only [Option.some_bind]
      rw [hV]
      simp +decide only [Option.some_bind]
      cases tl with
      | nil => rfl
      | cons k' v' tl' =>
        have hshape : stringifyRestO (.cons k' v' tl') ++ '}' :: rest =
            ',' :: '"' :: (escapeStr k' ++ '"' :: ':' ::
              (stringifyV v' ++ (stringifyRestO tl' ++ '}' :: rest))) := by
          simp [stringifyRestO]
        rw [hshape]
        have hbound : 3 + (escapeStr k').length + (stringifyV v').length +
            (stringifyRestO tl').length ≤ fuel := by
          have : (stringifyRestO (.cons k' v' tl')).length =
              (escapeStr k').length + (stringifyV v').length +
                (stringifyRestO tl').length + 4 := by
            simp [stringifyRestO]
            try omega
          omega
        have hrec := ihO k' v' tl' rest hbound hrest
        simp +decide only []
        rw [hrec]
        rfl

/-- Round trip at the top level: parsing a stringified value returns the
value (the model of `JSON.parse(JSON.stringify(v))` being `v`). -/
theorem parseJson_stringify (v : JSValue) : parseJson (stringifyV v) = some v := by
  have h := (parse_stringify ((stringifyV v).length + 1)).1 v [] (by omega) rfl
  rw [List.append_nil] at h
  rw [parseJson, h]

/-! ### `src/src/utils/storage.ts`

`localStorage` is modelled as an association list from keys to stored
strings.  The browser primitives can throw (quota exceeded, storage access
denied); each wrapper takes a boolean oracle saying whether the underlying
primitive throws on this call, and the `try`/`catch` in the source is
modelled by returning the unchanged state (the error is only logged). -/

/-- Browser `localStorage` contents. -/
abbrev LocalStorage := List (String × String)

/-- Model of `saveToStorage`: `JSON.stringify` the data and `setItem` it;
a thrown storage error is caught, leaving the store unchanged. -/
def saveToStorage (setThrows : Bool) (st : LocalStorage) (key : String)
    (data : JSValue) : LocalStorage :=
  if setThrows then st
  else aset st key (String.mk (stringifyV data))

/-- Model of `getFromStorage`: `getItem` then `JSON.parse`; a missing key
returns `null` (`none`), and a thrown read or parse error is caught and
also returns `null`. -/
def getFromStorage (getThrows : Bool) (st : LocalStorage) (key : String) :
    Option JSValue :=
  if getThrows then none
  else
    match alookup st key with
    | none => none
    | some item => parseJson item.data

/-- Model of `removeFromStorage`: `removeItem`; a thrown error is caught,
leaving the store unchanged. -/
def removeFromStorage (removeThrows : Bool) (st : LocalStorage) (key : String) :
    LocalStorage :=
  if removeThrows then st else aremove st key

/-! ### `src/api/sync.ts`

The Vercel request is modelled by the fields the handler reads; the Upstash
Redis store is an association list from keys to the stored JSON documents
(the client auto-serialises).  The `try`/`catch` around the Redis calls
(responding 500 if the external client throws) is not modelled: the store
oracle is total. -/

/-- A query-string value as Vercel's `req.query` delivers it:
a string or an array of strings. -/
inductive QueryValue : Type where
  | str (s : String) : QueryValue
  | strs (l : List String) : QueryValue
  deriving DecidableEq

/-- The parts of the incoming request that `api/sync.ts` reads.  The
`authorization` header is carried to express that the handler never reads
it. -/
structure SyncReq where
  method : String
  userId : Option QueryValue
  body : Option JSValue
  authorization : Option String
  deriving DecidableEq

/-- The Upstash Redis store. -/
abbrev SyncStore := List (String × JSValue)

/-- The response the handler sends: status code and JSON payload (`none`
for the header-only `OPTIONS` reply). -/
structure SyncResp where
  status : Nat
  body : Option JSValue
  deriving DecidableEq

/-- Key format: `user:{userId}:data`. -/
def getUserKey (userId : String) : String := "user:" ++ userId ++ ":data"

/-- A one-field `{ error: msg }` JSON object. -/
def errorBody (msg : String) : JSValue :=
  .obj (.cons "error".data (.str msg.data) .nil)

/-- The 404 payload `{ error: 'No data found', data: null }`. -/
def notFoundBody : JSValue :=
  .obj (.cons "error".data (.str "No data found".data)
    (.cons "data".data .null .nil))

/-- The 200 GET payload `{ success: true, data }`. -/
def getSuccessBody (d : JSValue) : JSValue :=
  .obj (.cons "success".data (.bool true) (.cons "data".data d .nil))

/-- The 200 POST payload `{ success: true, message: ... }`. -/
def postSuccessBody : JSValue :=
  .obj (.cons "success".data (.bool true)
    (.cons "message".data (.str "Data saved successfully".data) .nil))

/-- Model of the `api/sync.ts` handler: returns the response and the Redis
store after the call. -/
def syncHandler (req : SyncReq) (store : SyncStore) : SyncResp × SyncStore :=
  if req.method = "OPTIONS" then ({ status := 200, body := none }, store)
  else
    match req.userId with
    | some (.str u) =>
      if u = "" then
        ({ status := 400, body := some (errorBody "userId is required") }, store)
      else
        let key := getUserKey u
        if req.method = "GET" then
          match alookup store key with
          | none => ({ status := 404, body := some notFoundBody }, store)
          | some d =>
            if jsTruthy d then
              ({ status := 200, body := some (getSuccessBody d) }, store)
            else ({ status := 404, body := some notFoundBody }, store)
        else if req.method = "POST" then
          match req.body with
          | some d =>
            if jsTruthy d && typeofIsObject d then
              ({ status := 200, body := some postSuccessBody }, aset store key d)
            else
              ({ status := 400, body := some (errorBody "Data object is required") },
                store)
          | none =>
            ({ status := 400, body := some (errorBody "Data object is required") },
              store)
        else ({ status := 405, body := some (errorBody "Method not allowed") }, store)
    | some (.strs _) =>
      ({ status := 400, body := some (errorBody "userId is required") }, store)
    | none =>
      ({ status := 400, body := some (errorBody "userId is required") }, store)

/-! ### `src/api/kakao/[...path].ts` -/

/-- The parts of the incoming request the kakao proxy reads. -/
structure KakaoReq where
  query : List (String × QueryValue)
  authorization : Option String
  method : Option String
  deriving DecidableEq

/-- JS truthiness of a query value: the empty string is falsy, arrays
(even empty ones) are truthy. -/
def queryTruthy : QueryValue → Bool
  | .str s => s ≠ ""
  | .strs _ => true

/-- The string `searchParams.set` receives: `value[0]` for an array
(JavaScript yields `undefined` for an empty array, which `set` coerces to
the string "undefined"), the string itself otherwise. -/
def firstParamValue : QueryValue → String
  | .str s => s
  | .strs l => l.headD "undefined"

/-- The path appended to `https://dapi.kakao.com/`: the catch-all `path`
segments joined with '/' (a plain string is used as is; missing or empty
gives the empty path). -/
def kakaoPathString (q : List (String × QueryValue)) : String :=
  match alookup q "path" with
  | some (.strs l) => String.intercalate "/" l
  | some (.str s) => s
  | none => ""

/-- The query parameters copied onto the upstream URL: every entry except
`path` whose value is truthy, set with `searchParams.set` semantics. -/
def kakaoParams (q : List (String × QueryValue)) : List (String × String) :=
  q.foldl
    (fun acc kv =>
      if kv.1 ≠ "path" ∧ queryTruthy kv.2 then aset acc kv.1 (firstParamValue kv.2)
      else acc)
    []

/-- The request the proxy sends upstream (URL path after the fixed
`https://dapi.kakao.com/` base, query parameters, method, and the forwarded
`Authorization` header). -/
structure UpstreamReq where
  urlPath : String
  params : List (String × String)
  method : String
  authorization : String
  deriving DecidableEq

/-- Assemble the upstream request from the incoming one. -/
def upstreamReq (req : KakaoReq) : UpstreamReq :=
  { urlPath := kakaoPathString req.query
    params := kakaoParams req.query
    method := req.method.getD "GET"
    authorization := req.authorization.getD "" }

/-- The proxy's response: status, JSON body, and the
`Access-Control-Allow-Origin` header value if one was set (the source sets
the CORS headers only on the success path, before `res.status(...).json`). -/
structure KakaoResp where
  status : Nat
  body : JSValue
  corsAllowOrigin : Option String
  deriving DecidableEq

/-- Model of the kakao proxy handler.  `fetchResult` is the oracle for
`fetch` plus `response.json()`: `some (status, data)` for a parsed upstream
reply, `none` when either throws (both are caught by the handler's
`try`/`catch`). -/
def kakaoHandler (req : KakaoReq)
    (fetchResult : UpstreamReq → Option (Nat × JSValue)) : KakaoResp :=
  match fetchResult (upstreamReq req) with
  | some (st, data) => { status := st, body := data, corsAllowOrigin := some "*" }
  | none =>
    { status := 500, body := errorBody "Failed to fetch from Kakao API"
      corsAllowOrigin := none }

/-! ### The nested todo tree (`TodoWidget`)

`TodoItem` mirrors the TS interface (`src/src/types/index.ts`): `subTodos`
is a mutually inductive list so that structural recursion is available;
an absent (`undefined`) `subTodos` and an empty array behave identically in
every traversal the widget performs, so both are modelled as `.nil`.
The `alarm` field is never touched by the tree operations and is omitted. -/

mutual
inductive TodoItem : Type where
  | mk (id title : String) (completed : Bool) (dueDate dueTime : Option String)
      (recurring lastCompletedDate : Option String) (createdAt : String)
      (subTodos : TodoList) (isExpanded : Bool) : TodoItem
  deriving DecidableEq

inductive TodoList : Type where
  | nil : TodoList
  | cons (hd : TodoItem) (tl : TodoList) : TodoList
  deriving DecidableEq
end

def TodoItem.id : TodoItem → String
  | .mk i _ _ _ _ _ _ _ _ _ => i

def TodoItem.title : TodoItem → String
  | .mk _ t _ _ _ _ _ _ _ _ => t

def TodoItem.completed : TodoItem → Bool
  | .mk _ _ c _ _ _ _ _ _ _ => c

def TodoItem.dueDate : TodoItem → Option String
  | .mk _ _ _ dd _ _ _ _ _ _ => dd

def TodoItem.dueTime : TodoItem → Option String
  | .mk _ _ _ _ dt _ _ _ _ _ => dt

def TodoItem.recurring : TodoItem → Option String
  | .mk _ _ _ _ _ r _ _ _ _ => r

def TodoItem.subTodos : TodoItem → TodoList
  | .mk _ _ _ _ _ _ _ _ subs _ => subs

def TodoItem.isExpanded : TodoItem → Bool
  | .mk _ _ _ _ _ _ _ _ _ ex => ex

/-- Spread-update `{...item, completed: c}`. -/
def TodoItem.setCompleted : TodoItem → Bool → TodoItem
  | .mk i t _ dd dt r lcd ca subs ex, c => .mk i t c dd dt r lcd ca subs ex

/-- Spread-update `{...item, subTodos: subs}`. -/
def TodoItem.setSubTodos : TodoItem → TodoList → TodoItem
  | .mk i t c dd dt r lcd ca _ ex, subs => .mk i t c dd dt r lcd ca subs ex

/-- Spread-update `{...item, isExpanded: ex}`. -/
def TodoItem.setExpanded : TodoItem → Bool → TodoItem
  | .mk i t c dd dt r lcd ca subs _, ex => .mk i t c dd dt r lcd ca subs ex

/-- Spread-update `{...item, lastCompletedDate: d}`. -/
def TodoItem.setLastCompleted : TodoItem → Option String → TodoItem
  | .mk i t c dd dt r _ ca subs ex, lcd => .mk i t c dd dt r lcd ca subs ex

def TodoList.append : TodoList → TodoList → TodoList
  | .nil, l => l
  | .cons hd tl, l => .cons hd (TodoList.append tl l)

/-- `subTodos.every((sub) => sub.completed)`. -/
def allCompleted : TodoList → Bool
  | .nil => true
  | .cons hd tl => hd.completed && allCompleted tl

theorem sizeOf_subTodos_lt (item : TodoItem) : sizeOf item.subTodos < sizeOf item := by
  cases item with
  | mk i t c dd dt r lcd ca subs ex => simp [TodoItem.subTodos]; omega

mutual
/-- One item of `syncCompletionStatus`: bottom-up, a parent with a non-empty
`subTodos` list gets `completed` set to the conjunction of its children's
`completed` flags, collapsing (`isExpanded := false`) when it becomes
completed. -/
def syncItem : TodoItem → TodoItem
  | .mk i t c dd dt r lcd ca subs ex =>
    match subs with
    | .nil => .mk i t c dd dt r lcd ca .nil ex
    | .cons s stl =>
      let subs2 := syncList (.cons s stl)
      let allC := allCompleted subs2
      if c ≠ allC then
        .mk i t allC dd dt r lcd ca subs2 (if allC then false else ex)
      else .mk i t c dd dt r lcd ca subs2 ex

/-- `syncCompletionStatus` over a list of todos. -/
def syncList : TodoList → TodoList
  | .nil => .nil
  | .cons hd tl => .cons (syncItem hd) (syncList tl)
end

/-- `updateTodoInTree`: rebuild the tree, applying `up` to the item with the
given id (dropping it if `up` returns `none`) and recursing into the
children of every other item. -/
def updateTodoInTree (l : TodoList) (tid : String) (up : TodoItem → Option TodoItem) :
    TodoList :=
  match l with
  | .nil => .nil
  | .cons item rest =>
    if item.id = tid then
      match up item with
      | some updated => .cons updated (updateTodoInTree rest tid up)
      | none => updateTodoInTree rest tid up
    else
      .cons (item.setSubTodos (updateTodoInTree item.subTodos tid up))
        (updateTodoInTree rest tid up)
  termination_by sizeOf l
  decreasing_by
  all_goals
    first
      | (simp <;> omega)
      | (have hlt := sizeOf_subTodos_lt hd; simp <;> omega)

/-- The `toggleSubTasks` traversal: flip `isExpanded` on the item with the
given id. -/
def toggleExpandInTree (l : TodoList) (tid : String) : TodoList :=
  match l with
  | .nil => .nil
  | .cons item rest =>
    if item.id = tid then
      .cons (item.setExpanded (!item.isExpanded)) (toggleExpandInTree rest tid)
    else
      .cons (item.setSubTodos (toggleExpandInTree item.subTodos tid))
        (toggleExpandInTree rest tid)
  termination_by sizeOf l
  decreasing_by
  all_goals
    first
      | (simp <;> omega)
      | (have hlt := sizeOf_subTodos_lt hd; simp <;> omega)

/-- Whether `item.recurring && item.recurring !== 'none'` is truthy. -/
def recurringActive : Option String → Bool
  | none => false
  | some r => r ≠ "" && r ≠ "none"

/-- `toggleTodo`: items with sub-todos only toggle expansion; a leaf item's
`completed` is flipped (recording `lastCompletedDate` for recurring items)
and the whole tree is re-synchronised. -/
def toggleTodo (todos : TodoList) (tid : String) (hasSubTodos : Bool)
    (today : String) : TodoList :=
  if hasSubTodos then toggleExpandInTree todos tid
  else
    syncList (updateTodoInTree todos tid (fun item =>
      let newCompleted := !item.completed
      if newCompleted && recurringActive item.recurring then
        some ((item.setCompleted newCompleted).setLastCompleted (some today))
      else some (item.setCompleted newCompleted)))

/-- The `addSubTaskToTree` closure of `handleModalSubmit`: append the new
todo to the parent's `subTodos` (expanding it), recursing into children of
other items.  Note: the submit path does not re-run `syncCompletionStatus`. -/
def addSubTaskToTree (l : TodoList) (parentId : String) (newTodo : TodoItem) :
    TodoList :=
  match l with
  | .nil => .nil
  | .cons item rest =>
    if item.id = parentId then
      .cons ((item.setSubTodos (item.subTodos.append (.cons newTodo .nil))).setExpanded
          true)
        (addSubTaskToTree rest parentId newTodo)
    else
      .cons (item.setSubTodos (addSubTaskToTree item.subTodos parentId newTodo))
        (addSubTaskToTree rest parentId newTodo)
  termination_by sizeOf l
  decreasing_by
  all_goals
    first
      | (simp <;> omega)
      | (have hlt := sizeOf_subTodos_lt hd; simp <;> omega)

/-- The new `TodoItem` `handleModalSubmit` builds (no sub-todos, not
completed, not expanded). -/
def modalNewTodo (id title : String) (dueDate dueTime recurring : Option String)
    (createdAt : String) : TodoItem :=
  .mk id title false dueDate dueTime recurring none createdAt .nil false

/-- The `filter` pass of `handleDrop`'s `findAndRemove`: drop every item
with the source id at this level; the captured `removed` is the last match
in iteration order (later assignments overwrite earlier ones). -/
def removePass (items : TodoList) (sid : String) : TodoList × Option TodoItem :=
  match items with
  | .nil => (.nil, none)
  | .cons item rest =>
    let r := removePass rest sid
    if item.id = sid then
      (r.1, match r.2 with | some x => some x | none => some item)
    else (.cons item r.1, r.2)

theorem removePass_sizeOf_le (items : TodoList) (sid : String) :
    sizeOf (removePass items sid).1 ≤ sizeOf items := by
  cases items with
  | nil => simp [removePass]
  | cons hd tl =>
    have ih := removePass_sizeOf_le tl sid
    rw [removePass]
    by_cases h : hd.id = sid
    · simp only [if_pos h]
      have : sizeOf (TodoList.cons hd tl) = 1 + sizeOf hd + sizeOf tl := by simp
      omega
    · simp only [if_neg h]
      have : sizeOf (TodoList.cons hd (removePass tl sid).1) =
          1 + sizeOf hd + sizeOf (removePass tl sid).1 := by simp
      have h2 : sizeOf (TodoList.cons hd tl) = 1 + sizeOf hd + sizeOf tl := by simp
      omega

/-- The `map` pass of `handleDrop`'s `findAndRemove`: recurse into the
children of every item that has any.  The recursive `findAndRemove` call of
the source (filter pass, then map pass, combining the captured `removed`)
is inlined here so that the recursion is on a single decreasing measure;
`findAndRemove` below is the same composition at the top level. -/
def mapPass (items : TodoList) (sid : String) : TodoList × Option TodoItem :=
  match items with
  | .nil => (.nil, none)
  | .cons item rest =>
    let r := mapPass rest sid
    if item.subTodos = .nil then (.cons item r.1, r.2)
    else
      let f := removePass item.subTodos sid
      let m := mapPass f.1 sid
      let res : TodoList × Option TodoItem :=
        (m.1, match m.2 with | some x => some x | none => f.2)
      (.cons (item.setSubTodos res.1) r.1,
        match r.2 with | some x => some x | none => res.2)
  termination_by sizeOf items
  decreasing_by
  all_goals
    first
      | (simp <;> omega)
      | (have h1 := removePass_sizeOf_le hd.subTodos sid
         have h2 := sizeOf_subTodos_lt hd
         simp
         omega)

/-- `findAndRemove` of `handleDrop`: filter the source id out of this level,
then map over the survivors recursing into their children; the resulting
`removed` is the last assignment either pass makes (the `map` pass runs
after the `filter` pass). -/
def findAndRemove (items : TodoList) (sid : String) : TodoList × Option TodoItem :=
  let f := removePass items sid
  let m := mapPass f.1 sid
  (m.1, match m.2 with | some x => some x | none => f.2)

/-- `addAsSubTask` of `handleDrop`: append the removed item (with its own
children stripped, `subTodos: undefined`) to the target's children and
expand the target. -/
def addAsSubTask (l : TodoList) (targetId : String) (removedItem : TodoItem) :
    TodoList :=
  match l with
  | .nil => .nil
  | .cons item rest =>
    if item.id = targetId then
      .cons ((item.setSubTodos (item.subTodos.append
          (.cons (removedItem.setSubTodos .nil) .nil))).setExpanded true)
        (addAsSubTask rest targetId removedItem)
    else
      .cons (item.setSubTodos (addAsSubTask item.subTodos targetId removedItem))
        (addAsSubTask rest targetId removedItem)
  termination_by sizeOf l
  decreasing_by
  all_goals
    first
      | (simp <;> omega)
      | (have hlt := sizeOf_subTodos_lt hd; simp <;> omega)

/-- `handleDrop` of the todo widget: `none` models the early returns (no
state change); otherwise the source item is removed from the tree, added as
a sub-task of the target, and the tree re-synchronised. -/
def handleDropTodo (todos : TodoList) (sourceId targetId : String) (depth : Nat) :
    Option TodoList :=
  if sourceId = "" ∨ sourceId = targetId ∨ depth > 0 then none
  else
    match findAndRemove todos sourceId with
    | (_, none) => none
    | (newTodos, some rem) => some (syncList (addAsSubTask newTodos targetId rem))

/-- `subTodos.find(s => s.id === sourceId)`. -/
def findChild (l : TodoList) (sid : String) : Option TodoItem :=
  match l with
  | .nil => none
  | .cons item rest => if item.id = sid then some item else findChild rest sid

/-- `subTodos.filter(s => s.id !== sourceId)` (one level only). -/
def filterOutId (l : TodoList) (sid : String) : TodoList :=
  match l with
  | .nil => .nil
  | .cons item rest =>
    if item.id = sid then filterOutId rest sid
    else .cons item (filterOutId rest sid)

/-- `moveToRoot` of the root drop zone: find the item inside some parent's
children (direct children first, then recursively), remove it there, and
report it; the reported `moved` is the last assignment in iteration order. -/
def moveToRoot (items : TodoList) (sid : String) : TodoList × Option TodoItem :=
  match items with
  | .nil => (.nil, none)
  | .cons item rest =>
    if item.subTodos = .nil then
      let r := moveToRoot rest sid
      (.cons item r.1, r.2)
    else
      match findChild item.subTodos sid with
      | some child =>
        let r := moveToRoot rest sid
        (.cons (item.setSubTodos (filterOutId item.subTodos sid)) r.1,
          match r.2 with | some m => some m | none => some child)
      | none =>
        let rs := moveToRoot item.subTodos sid
        let r := moveToRoot rest sid
        (.cons (item.setSubTodos rs.1) r.1,
          match r.2 with | some m => some m | none => rs.2)
  termination_by sizeOf items
  decreasing_by
  all_goals
    first
      | (simp <;> omega)
      | (have hlt := sizeOf_subTodos_lt hd; simp <;> omega)

/-- The root drop zone's `onDrop`: move the source item out of its parent
to the end of the root list and re-synchronise; `none` models the paths
that do not change the todos. -/
def rootDropHandler (todos : TodoList) (sourceId : String) : Option TodoList :=
  if sourceId = "" then none
  else
    match moveToRoot todos sourceId with
    | (newTodos, some moved) => some (syncList (newTodos.append (.cons moved .nil)))
    | (_, none) => none

mutual
/-- The parent-completion invariant for one item: if it has sub-todos, its
`completed` flag agrees with the conjunction of theirs, recursively. -/
def invItem : TodoItem → Bool
  | .mk _ _ c _ _ _ _ _ subs _ =>
    (match subs with
     | .nil => true
     | .cons _ _ => c == allCompleted subs) && invList subs

/-- The parent-completion invariant for a list of items. -/
def invList : TodoList → Bool
  | .nil => true
  | .cons hd tl => invItem hd && invList tl
end

mutual
theorem invItem_syncItem (x : TodoItem) : invItem (syncItem x) = true := by
  cases x with
  | mk i t c dd dt r lcd ca subs ex =>
    cases subs with
    | nil => rfl
    | cons s stl =>
      rw [syncItem]
      have hs : syncList (.cons s stl) = .cons (syncItem s) (syncList stl) := rfl
      have hinv : invList (syncList (.cons s stl)) = true := invList_syncList (.cons s stl)
      by_cases h : c ≠ allCompleted (syncList (.cons s stl))
      · simp only [if_pos h]
        rw [hs] at hinv ⊢
        rw [invItem.eq_def]
        simp [hinv]
      · simp only [if_neg h]
        push_neg at h
        rw [hs] at hinv h ⊢
        rw [invItem.eq_def]
        simp [hinv, h]

theorem invList_syncList (l : TodoList) : invList (syncList l) = true := by
  cases l with
  | nil => rfl
  | cons hd tl =>
    rw [syncList, invList, invItem_syncItem hd, invList_syncList tl]
    rfl
end

/-! ### The calendar widget (`CalendarWidget` in
`src/src/components/widgets/ReadingWidget.tsx`)

`Date` is a browser primitive; `daysInMonth` / `firstDayOfWeek` model the
`new Date(...)` calls the widget makes, over the proleptic Gregorian
calendar that JavaScript dates implement for the date-only constructors
used here. -/

/-- The calendar event record. -/
structure CalendarEvent where
  id : String
  date : String
  endDate : Option String
  title : String
  time : Option String
  location : Option String
  groupId : Option String
  deriving DecidableEq

/-- The `type` discriminator of a `CalendarDisplayItem`. -/
inductive DisplayKind : Type where
  | event : DisplayKind
  | todo : DisplayKind
  deriving DecidableEq

/-- A calendar cell entry produced by `getItemsForDate` (the unused
`originalEvent` back-pointer, not set by this function, is omitted). -/
structure CalendarDisplayItem where
  id : String
  title : String
  kind : DisplayKind
  time : Option String
  isOverdue : Bool
  isMultiDay : Bool
  deriving DecidableEq

/-- The filter of the events part of `getItemsForDate`: a truthy `endDate`
selects the inclusive string-compare range check, otherwise exact equality
of the start date. -/
def eventMatchesDate (e : CalendarEvent) (dateStr : String) : Bool :=
  match e.endDate with
  | some en =>
    if en ≠ "" then jsLe e.date dateStr && jsLe dateStr en
    else e.date == dateStr
  | none => e.date == dateStr

/-- `!!(e.endDate && e.endDate !== e.date)`. -/
def isMultiDayEvent (e : CalendarEvent) : Bool :=
  match e.endDate with
  | some en => en ≠ "" && en != e.date
  | none => false

/-- The display item an event is mapped to. -/
def displayOfEvent (e : CalendarEvent) : CalendarDisplayItem :=
  { id := e.id, title := e.title, kind := .event, time := e.time,
    isOverdue := false, isMultiDay := isMultiDayEvent e }

/-- The display item a due todo is mapped to (`t.dueDate!` is a non-null
assertion; the filter guarantees it, and `getD ""` stands for it here). -/
def displayOfTodo (t : TodoItem) (todayStr : String) : CalendarDisplayItem :=
  { id := t.id, title := t.title, kind := .todo, time := t.dueTime,
    isOverdue := jsLt (t.dueDate.getD "") todayStr, isMultiDay := false }

/-- The todos part of `getItemsForDate`: top-level todos due on the date
and not completed. -/
def dueTodoItems (todos : TodoList) (todayStr dateStr : String) :
    List CalendarDisplayItem :=
  match todos with
  | .nil => []
  | .cons t rest =>
    if t.dueDate == some dateStr && !t.completed then
      displayOfTodo t todayStr :: dueTodoItems rest todayStr dateStr
    else dueTodoItems rest todayStr dateStr

/-- `getItemsForDate`: the matching calendar events followed by the due
todos. -/
def getItemsForDate (events : List CalendarEvent) (todos : TodoList)
    (todayStr dateStr : String) : List CalendarDisplayItem :=
  (events.filter (fun e => eventMatchesDate e dateStr)).map displayOfEvent ++
    dueTodoItems todos todayStr dateStr

/-- Gregorian leap-year rule. -/
def isLeapYear (y : Int) : Bool :=
  (y % 4 == 0 && y % 100 != 0) || y % 400 == 0

/-- Length of the 0-based month `m` (`m ≥ 11` behaves as December, which
never arises for normalised months). -/
def monthLength (leap : Bool) (m : Nat) : Nat :=
  match m with
  | 0 => 31 | 1 => if leap then 29 else 28 | 2 => 31 | 3 => 30 | 4 => 31
  | 5 => 30 | 6 => 31 | 7 => 31 | 8 => 30 | 9 => 31 | 10 => 30 | _ => 31

/-- Model of `new Date(y, m, 0).getDate()`: the number of days of the month
before the (0-based, possibly out-of-range) month `m`, with JS month
normalisation. -/
def jsLastDayOfMonth (y : Int) (m : Int) : Nat :=
  let mm := m - 1
  let y2 := y + mm.fdiv 12
  let m2 := (mm.emod 12).toNat
  monthLength (isLeapYear y2) m2

/-- Days from the civil epoch 1970-01-01 to year `y`, 0-based month
`m < 12`, day `d ≥ 1` (standard civil-from-days computation). -/
def daysFromCivil (y : Int) (m : Nat) (d : Nat) : Int :=
  let y2 : Int := if m ≤ 1 then y - 1 else y
  let era : Int := y2.fdiv 400
  let yoe : Int := y2 - era * 400
  let mp : Nat := (m + 10) % 12
  let doy : Int := ((153 * mp + 2) / 5 + (d - 1) : Nat)
  let doe : Int := yoe * 365 + yoe / 4 - yoe / 100 + doy
  era * 146097 + doe - 719468

/-- Model of `new Date(y, m, 1).getDay()`: day of the week, Sunday = 0
(1970-01-01 was a Thursday). -/
def firstDayOfWeek (y : Int) (m : Nat) : Nat :=
  ((daysFromCivil y m 1 + 4).emod 7).toNat

/-- One cell of the month grid. -/
structure CalendarDay where
  date : Nat
  dateStr : String
  isCurrentMonth : Bool
  deriving DecidableEq

/-- Decimal string of a natural number. -/
def natString (n : Nat) : String := String.mk (natChars n)

/-- Decimal string of an integer. -/
def intString (i : Int) : String := String.mk (intChars i)

/-- `String(n).padStart(2, '0')`. -/
def pad2 (n : Nat) : String := if n < 10 then "0" ++ natString n else natString n

/-- The `YYYY-MM-DD` strings the widget builds (`m1` is the 1-based month
number it interpolates). -/
def dateStrOf (y : Int) (m1 : Nat) (d : Nat) : String :=
  intString y ++ "-" ++ pad2 m1 ++ "-" ++ pad2 d

/-- The `calendarDays` month grid: trailing days of the previous month
(the first loop runs `i` from `firstDayOfWeek - 1` down to `0`), the days
of the viewed month, and enough leading days of the next month to complete
the last week. -/
def calendarDays (y : Int) (m : Nat) : List CalendarDay :=
  let daysInMonth := jsLastDayOfMonth y (m + 1)
  let fdw := firstDayOfWeek y m
  let prevMonthLastDay := jsLastDayOfMonth y m
  let prevM := if m = 0 then 12 else m
  let prevY := if m = 0 then y - 1 else y
  let prevCells := ((List.range fdw).reverse).map (fun i =>
    { date := prevMonthLastDay - i
      dateStr := dateStrOf prevY prevM (prevMonthLastDay - i)
      isCurrentMonth := false : CalendarDay })
  let currCells := (List.range daysInMonth).map (fun k =>
    { date := k + 1, dateStr := dateStrOf y (m + 1) (k + 1)
      isCurrentMonth := true : CalendarDay })
  let days := prevCells ++ currCells
  let remainingCells := 7 - days.length % 7
  if remainingCells < 7 then
    let nextM := if m = 11 then 1 else m + 2
    let nextY := if m = 11 then y + 1 else y
    days ++ (List.range remainingCells).map (fun k =>
      { date := k + 1, dateStr := dateStrOf nextY nextM (k + 1)
        isCurrentMonth := false : CalendarDay })
  else days

/-! ### The reading list (`ReadingWidget`) -/

/-- A reading-list entry.  The optional `subItems` / `isExpanded` fields of
the TS interface are never read or written by `ReadingWidget` and are
omitted. -/
structure ReadingItem where
  id : String
  title : String
  url : String
  status : String
  createdAt : String
  deriving DecidableEq

/-- `deleteReading`: filter out the entry with the given id. -/
def deleteReading (readings : List ReadingItem) (rid : String) : List ReadingItem :=
  readings.filter (fun r => r.id != rid)

/-- The active swipe state (`{ id, offsetX }`). -/
structure SwipeState where
  id : String
  offsetX : Int
  deriving DecidableEq

/-- `SWIPE_THRESHOLD = 120` pixels. -/
def swipeDeleteThreshold : Int := 120

/-- Net effect of `processEnd` on the readings list: past the threshold the
swiped entry is deleted (after the dismiss animation's timeout); otherwise
the list is untouched. -/
def processEnd (activeSwipe : Option SwipeState) (readings : List ReadingItem) :
    List ReadingItem :=
  match activeSwipe with
  | none => readings
  | some swipe =>
    if swipeDeleteThreshold < |swipe.offsetX| then deleteReading readings swipe.id
    else readings

/-- `newReadings.splice(index, 0, item)`: insert at the index, clamped to
the array length. -/
def spliceInsert {α : Type} : List α → Nat → α → List α
  | l, 0, a => a :: l
  | [], _ + 1, a => [a]
  | b :: l, n + 1, a => b :: spliceInsert l n a

/-- `handleDrop` of the reading list: splice the dragged entry out and
splice it back in at the drop index (`none` models the `draggedIdx === null`
early return; an out-of-range dragged index, unreachable from the rendered
list, leaves the removal a no-op). -/
def handleDropReading (readings : List ReadingItem) (draggedIdx : Option Nat)
    (index : Nat) : List ReadingItem :=
  match draggedIdx with
  | none => readings
  | some i =>
    match readings.get? i with
    | some draggedItem => spliceInsert (readings.eraseIdx i) index draggedItem
    | none => readings.eraseIdx i

/-! ### Claim theorems -/

/-- C1 (counterexample): a GET request to the sync handler carrying no
authentication credential at all (`authorization := none`) is not rejected:
it answers 200 and returns the stored document.  The claim that requests
without a valid credential are rejected and the document is not loaded is
therefore false of the code. -/
theorem sync_no_auth_counterexample :
    (syncHandler
      { method := "GET", userId := some (.str "u"), body := none,
        authorization := none }
      [("user:u:data", .obj (.cons "widgets".data (.num 3) .nil))]).1 =
      { status := 200,
        body := some (getSuccessBody (.obj (.cons "widgets".data (.num 3) .nil))) } := by
  rfl

/-- C1 (amended): the sync handler checks no authentication credential; it
is gated only on the `userId` query parameter.  A non-OPTIONS request whose
`userId` is missing, empty, or not a single string is answered 400 with an
error body and the store is neither read nor written; and the handler's
behaviour is entirely independent of the Authorization header. -/
theorem sync_gated_only_by_userId :
    (∀ (req : SyncReq) (store : SyncStore),
      (req.userId = none ∨ req.userId = some (.str "") ∨
        ∃ l, req.userId = some (.strs l)) →
      req.method ≠ "OPTIONS" →
      syncHandler req store =
        ({ status := 400, body := some (errorBody "userId is required") }, store)) ∧
    (∀ (req : SyncReq) (store : SyncStore) (a1 a2 : Option String),
      syncHandler { req with authorization := a1 } store =
        syncHandler { req with authorization := a2 } store) := by
  constructor
  · intro req store hid hmeth
    rcases hid with h | h | ⟨l, h⟩ <;> rw [syncHandler, if_neg hmeth, h]
    · simp
  · intro req store a1 a2
    rfl

/-- Closed witness for the amended C1 theorem. -/
theorem sync_gated_only_by_userId_witness :
    syncHandler
        { method := "GET", userId := none, body := none, authorization := none } [] =
      ({ status := 400, body := some (errorBody "userId is required") }, []) ∧
    syncHandler
        { method := "GET", userId := some (.str "u"), body := none,
          authorization := some "token" } [] =
      syncHandler
        { method := "GET", userId := some (.str "u"), body := none,
          authorization := none } [] :=
  ⟨sync_gated_only_by_userId.1 _ [] (Or.inl rfl) (by decide),
   sync_gated_only_by_userId.2
     { method := "GET", userId := some (.str "u"), body := none,
       authorization := none } [] (some "token") none⟩

/-- C2: blob-store round trip.  For a non-empty `userId` and a JSON object
document, the POST stores the document under `user:{userId}:data` and
answers 200, and a subsequent GET with the same `userId` answers 200 with
the same document. -/
theorem sync_blob_roundtrip (u : String) (hu : u ≠ "") (fs : JSObject)
    (store : SyncStore) :
    (syncHandler
        { method := "POST", userId := some (.str u), body := some (.obj fs),
          authorization := none } store).1.status = 200 ∧
    alookup
        (syncHandler
          { method := "POST", userId := some (.str u), body := some (.obj fs),
            authorization := none } store).2 (getUserKey u) = some (.obj fs) ∧
    (syncHandler
        { method := "GET", userId := some (.str u), body := none,
          authorization := none }
        (syncHandler
          { method := "POST", userId := some (.str u), body := some (.obj fs),
            authorization := none } store).2).1 =
      { status := 200, body := some (getSuccessBody (.obj fs)) } := by
  have hpost : syncHandler
      { method := "POST", userId := some (.str u), body := some (.obj fs),
        authorization := none } store =
      ({ status := 200, body := some postSuccessBody },
        aset store (getUserKey u) (.obj fs)) := by
    rw [syncHandler]
    simp +decide [hu, jsTruthy, typeofIsObject]
  refine ⟨by rw [hpost], by rw [hpost]; exact alookup_aset_self store _ _, ?_⟩
  rw [hpost, syncHandler]
  simp +decide [hu, alookup_aset_self, jsTruthy]

/-- Closed witness for the C2 round-trip theorem. -/
theorem sync_blob_roundtrip_witness :
    (syncHandler
        { method := "POST", userId := some (.str "u1"), body := some (.obj .nil),
          authorization := none } []).1.status = 200 ∧
    alookup
        (syncHandler
          { method := "POST", userId := some (.str "u1"), body := some (.obj .nil),
            authorization := none } []).2 (getUserKey "u1") = some (.obj .nil) ∧
    (syncHandler
        { method := "GET", userId := some (.str "u1"), body := none,
          authorization := none }
        (syncHandler
          { method := "POST", userId := some (.str "u1"), body := some (.obj .nil),
            authorization := none } []).2).1 =
      { status := 200, body := some (getSuccessBody (.obj .nil)) } :=
  sync_blob_roundtrip "u1" (by decide) .nil []

/-- C3: local-storage persistence round trip.  Saving any modelled
JSON-serialisable value and reading it back through the storage utilities
returns the value (JSON.parse of JSON.stringify of it). -/
theorem storage_roundtrip (st : LocalStorage) (key : String) (v : JSValue) :
    getFromStorage false (saveToStorage false st key v) key = some v := by
  rw [saveToStorage, getFromStorage]
  simp only [Bool.false_eq_true, if_false, alookup_aset_self]
  exact parseJson_stringify v

/-- C9: the storage utilities are total at their interface.  Reading a
missing key gives `null`; reading a stored string that does not parse gives
`null`; a thrown read gives `null`; thrown writes and removals leave the
store unchanged (errors are only logged). -/
theorem storage_total_on_errors :
    (∀ (st : LocalStorage) (key : String), alookup st key = none →
      getFromStorage false st key = none) ∧
    (∀ (st : LocalStorage) (key : String) (s : String), alookup st key = some s →
      parseJson s.data = none → getFromStorage false st key = none) ∧
    (∀ (st : LocalStorage) (key : String), getFromStorage true st key = none) ∧
    (∀ (st : LocalStorage) (key : String) (v : JSValue),
      saveToStorage true st key v = st) ∧
    (∀ (st : LocalStorage) (key : String), removeFromStorage true st key = st) := by
  refine ⟨?_, ?_, ?_, ?_, ?_⟩
  · intro st key h; simp [getFromStorage, h]
  · intro st key s h hp; simp [getFromStorage, h, hp]
  · intro st key; rfl
  · intro st key v; rfl
  · intro st key; rfl

/-- Closed witness for the C9 totality theorem. -/
theorem storage_total_on_errors_witness :
    getFromStorage false [] "k" = none ∧
    getFromStorage false [("k", "not json")] "k" = none ∧
    getFromStorage true [] "k" = none ∧
    saveToStorage true [] "k" .null = [] ∧
    removeFromStorage true [] "k" = [] :=
  ⟨storage_total_on_errors.1 [] "k" rfl,
   storage_total_on_errors.2.1 [("k", "not json")] "k" "not json" rfl (by rfl),
   storage_total_on_errors.2.2.1 [] "k",
   storage_total_on_errors.2.2.2.1 [] "k" .null,
   storage_total_on_errors.2.2.2.2 [] "k"⟩

/-- C5 (counterexample): adding a sub-task through the modal
(`handleModalSubmit`'s `addSubTaskToTree`, which does not re-run
`syncCompletionStatus`) breaks the parent-completion invariant: a completed
parent keeps `completed = true` although its freshly added sub-todo is not
completed.  The invariant held before the operation. -/
theorem todo_modal_subtask_counterexample :
    invList
        (.cons (.mk "1" "p" true none none none none ""
          (.cons (.mk "2" "c" true none none none none "" .nil false) .nil) false)
          .nil) = true ∧
    invList
        (addSubTaskToTree
          (.cons (.mk "1" "p" true none none none none ""
            (.cons (.mk "2" "c" true none none none none "" .nil false) .nil) false)
            .nil)
          "1" (modalNewTodo "3" "new task" none none none "")) = false := by
  constructor
  · rfl
  · simp +decide [addSubTaskToTree, modalNewTodo, TodoItem.id, TodoItem.subTodos,
      TodoItem.setSubTodos, TodoItem.setExpanded, TodoList.append, invList, invItem,
      allCompleted, TodoItem.completed]

/-- C5 (amended): the todo-tree operations that re-run
`syncCompletionStatus` — toggling a leaf item, dropping one item onto
another, and moving an item to the root — re-establish the
parent-completion invariant: afterwards every item with a non-empty
`subTodos` list is completed exactly when all of its sub-todos are.
(Adding a sub-task via the modal is excluded: it skips the
re-synchronisation, see the counterexample.) -/
theorem todo_completion_invariant_sync_ops :
    (∀ (todos : TodoList) (tid today : String),
      invList (toggleTodo todos tid false today) = true) ∧
    (∀ (todos : TodoList) (s t : String) (d : Nat) (r : TodoList),
      handleDropTodo todos s t d = some r → invList r = true) ∧
    (∀ (todos : TodoList) (s : String) (r : TodoList),
      rootDropHandler todos s = some r → invList r = true) := by
  refine ⟨?_, ?_, ?_⟩
  · intro todos tid today
    exact invList_syncList _
  · intro todos s t d r h
    rw [handleDropTodo] at h
    split at h
    · exact Option.noConfusion h
    · split at h
      · exact Option.noConfusion h
      · rw [Option.some.injEq] at h
        rw [← h]
        exact invList_syncList _
  · intro todos s r h
    rw [rootDropHandler] at h
    split at h
    · exact Option.noConfusion h
    · split at h
      · rw [Option.some.injEq] at h
        rw [← h]
        exact invList_syncList _
      · exact Option.noConfusion h

/-- Closed witness for the amended C5 theorem. -/
theorem todo_completion_invariant_sync_ops_witness :
    invList (toggleTodo
        (.cons (.mk "2" "c" false none none none none "" .nil false) .nil)
        "2" false "2024-01-01") = true ∧
    invList
        (.cons (.mk "1" "p" false none none none none ""
          (.cons (.mk "2" "c" true none none none none "" .nil false)
            (.cons (.mk "4" "d" false none none none none "" .nil false) .nil)) true)
          .nil) = true ∧
    invList
        (.cons (.mk "1" "p" true none none none none "" .nil false)
          (.cons (.mk "4" "d" false none none none none "" .nil false)
            (.cons (.mk "2" "c" true none none none none "" .nil false) .nil))) =
      true := by
  refine ⟨todo_completion_invariant_sync_ops.1 _ "2" "2024-01-01", ?_, ?_⟩
  · refine todo_completion_invariant_sync_ops.2.1
      (.cons (.mk "1" "p" true none none none none ""
        (.cons (.mk "2" "c" true none none none none "" .nil false) .nil) false)
        (.cons (.mk "4" "d" false none none none none "" .nil false) .nil))
      "4" "1" 0 _ ?_
    simp +decide [handleDropTodo, findAndRemove, mapPass, removePass, addAsSubTask,
      syncList, syncItem, allCompleted, TodoItem.id, TodoItem.subTodos,
      TodoItem.setSubTodos, TodoItem.setExpanded, TodoItem.completed, TodoList.append]
  · refine todo_completion_invariant_sync_ops.2.2
      (.cons (.mk "1" "p" true none none none none ""
        (.cons (.mk "2" "c" true none none none none "" .nil false) .nil) false)
        (.cons (.mk "4" "d" false none none none none "" .nil false) .nil))
      "2" _ ?_
    simp +decide [rootDropHandler, moveToRoot, findChild, filterOutId, syncList,
      syncItem, allCompleted, TodoItem.id, TodoItem.subTodos, TodoItem.setSubTodos,
      TodoItem.setExpanded, TodoItem.completed, TodoList.append]

theorem aset_not_mem {α : Type} {acc : List (String × α)} {k : String}
    (h : ∀ p ∈ acc, p.1 ≠ k) (v : α) : aset acc k v = acc ++ [(k, v)] := by
  induction acc with
  | nil => rfl
  | cons hd tl ih =>
    obtain ⟨k', w⟩ := hd
    simp only [aset]
    rw [if_neg (h (k', w) (by simp))]
    rw [ih (fun p hp => h p (by simp [hp]))]
    rfl

/-- The step function `kakaoParams` folds with. -/
def kakaoParamStep (acc : List (String × String)) (kv : String × QueryValue) :
    List (String × String) :=
  if kv.1 ≠ "path" ∧ queryTruthy kv.2 then aset acc kv.1 (firstParamValue kv.2)
  else acc

theorem kakaoParams_foldl_eq (q : List (String × QueryValue)) :
    ∀ (acc : List (String × String)), (q.map Prod.fst).Nodup →
    (∀ kv ∈ q, ∀ p ∈ acc, p.1 ≠ kv.1) →
    q.foldl kakaoParamStep acc =
      acc ++ q.filterMap (fun kv =>
        if kv.1 ≠ "path" ∧ queryTruthy kv.2 then some (kv.1, firstParamValue kv.2)
        else none) := by
  induction q with
  | nil => intro acc _ _; simp
  | cons kv q' ih =>
    intro acc hnd hdisj
    obtain ⟨k0, v0⟩ := kv
    rw [List.map_cons, List.nodup_cons] at hnd
    rw [List.foldl_cons, List.filterMap_cons]
    by_cases hc : k0 ≠ "path" ∧ queryTruthy v0
    · rw [show kakaoParamStep acc (k0, v0) = aset acc k0 (firstParamValue v0) from
        if_pos hc]
      rw [aset_not_mem (fun p hp => hdisj (k0, v0) (by simp) p hp) _]
      rw [ih (acc ++ [(k0, firstParamValue v0)]) hnd.2 ?_]
      · rw [if_pos hc]
        simp
      · intro kv2 hkv2 p hp
        rcases List.mem_append.1 hp with hp | hp
        · exact hdisj kv2 (List.mem_cons_of_mem _ hkv2) p hp
        · simp at hp
          subst hp
          show k0 ≠ kv2.1
          intro heq
          apply hnd.1
          rw [show k0 = kv2.1 from heq]
          exact List.mem_map.2 ⟨kv2, hkv2, rfl⟩
    · rw [show kakaoParamStep acc (k0, v0) = acc from if_neg hc]
      rw [ih acc hnd.2 (fun kv2 hkv2 p hp => hdisj kv2 (List.mem_cons_of_mem _ hkv2) p hp)]
      rw [if_neg hc]

/-- C4 (counterexample): a query parameter with an empty-string value is
not copied onto the upstream URL (the handler's `value` truthiness test
skips it), contradicting the claim that every query parameter except
`path` is forwarded. -/
theorem kakao_empty_param_counterexample :
    upstreamReq
      { query := [("path", .strs ["v2", "local", "search"]), ("query", .str "")]
        authorization := none, method := none } =
      { urlPath := "v2/local/search", params := [], method := "GET"
        authorization := "" } := by
  rfl

/-- C4 (amended): the kakao proxy forwards to `https://dapi.kakao.com/`
joined with the catch-all path segments; it copies every query parameter
except `path` whose value is truthy (a non-empty string, or an array —
taking the array's first element, the literal string "undefined" if the
array is empty), with `searchParams.set` overwrite semantics; it forwards
the Authorization header; it answers with the upstream status and JSON body
together with `Access-Control-Allow-Origin: *`; and if the upstream fetch
(or body parse) throws it answers 500 with an error object and no CORS
header. -/
theorem kakao_proxy_behaviour :
    (∀ (req : KakaoReq) (segs : List String),
      alookup req.query "path" = some (.strs segs) →
      (upstreamReq req).urlPath = String.intercalate "/" segs) ∧
    (∀ req : KakaoReq, (req.query.map Prod.fst).Nodup →
      (upstreamReq req).params = req.query.filterMap (fun kv =>
        if kv.1 ≠ "path" ∧ queryTruthy kv.2 then some (kv.1, firstParamValue kv.2)
        else none)) ∧
    (∀ (req : KakaoReq) (a : String), req.authorization = some a →
      (upstreamReq req).authorization = a) ∧
    (∀ (req : KakaoReq) (fetchResult : UpstreamReq → Option (Nat × JSValue))
      (st : Nat) (body : JSValue),
      fetchResult (upstreamReq req) = some (st, body) →
      kakaoHandler req fetchResult =
        { status := st, body := body, corsAllowOrigin := some "*" }) ∧
    (∀ (req : KakaoReq) (fetchResult : UpstreamReq → Option (Nat × JSValue)),
      fetchResult (upstreamReq req) = none →
      kakaoHandler req fetchResult =
        { status := 500, body := errorBody "Failed to fetch from Kakao API"
          corsAllowOrigin := none }) := by
  refine ⟨?_, ?_, ?_, ?_, ?_⟩
  · intro req segs h
    rw [upstreamReq]
    rw [show kakaoPathString req.query = String.intercalate "/" segs from by
      rw [kakaoPathString, h]]
  · intro req hnd
    rw [upstreamReq]
    rw [show kakaoParams req.query = req.query.foldl kakaoParamStep [] from rfl]
    rw [kakaoParams_foldl_eq req.query [] hnd (by simp)]
    rfl
  · intro req a h
    rw [upstreamReq, h]
    rfl
  · intro req fetchResult st body h
    rw [kakaoHandler, h]
  · intro req fetchResult h
    rw [kakaoHandler, h]

/-- Closed witness for the amended C4 theorem. -/
theorem kakao_proxy_behaviour_witness :
    (upstreamReq
      { query := [("path", .strs ["v2", "local"]), ("query", .str "cafe")]
        authorization := some "KakaoAK key", method := some "GET" }).urlPath =
      String.intercalate "/" ["v2", "local"] ∧
    (upstreamReq
      { query := [("path", .strs ["v2", "local"]), ("query", .str "cafe")]
        authorization := some "KakaoAK key", method := some "GET" }).params =
      [("query", "cafe")] ∧
    (upstreamReq
      { query := [("path", .strs ["v2", "local"]), ("query", .str "cafe")]
        authorization := some "KakaoAK key", method := some "GET" }).authorization =
      "KakaoAK key" ∧
    kakaoHandler
        { query := [("path", .strs ["v2", "local"]), ("query", .str "cafe")]
          authorization := some "KakaoAK key", method := some "GET" }
        (fun _ => some (200, .obj .nil)) =
      { status := 200, body := .obj .nil, corsAllowOrigin := some "*" } ∧
    kakaoHandler
        { query := [("path", .strs ["v2", "local"]), ("query", .str "cafe")]
          authorization := some "KakaoAK key", method := some "GET" }
        (fun _ => none) =
      { status := 500, body := errorBody "Failed to fetch from Kakao API"
        corsAllowOrigin := none } := by
  refine ⟨kakao_proxy_behaviour.1 _ ["v2", "local"] rfl, ?_,
    kakao_proxy_behaviour.2.2.1 _ "KakaoAK key" rfl,
    kakao_proxy_behaviour.2.2.2.1 _ _ 200 (.obj .nil) rfl,
    kakao_proxy_behaviour.2.2.2.2 _ _ rfl⟩
  rw [kakao_proxy_behaviour.2.1 _ (by decide)]
  rfl

theorem dueTodoItems_kind (todos : TodoList) (a b : String) :
    ∀ it ∈ dueTodoItems todos a b, it.kind = .todo := by
  cases todos with
  | nil => simp [dueTodoItems]
  | cons t rest =>
    have ih := dueTodoItems_kind rest a b
    rw [dueTodoItems]
    by_cases h : t.dueDate == some b && !t.completed
    · rw [if_pos h]
      intro it hit
      rcases List.mem_cons.1 hit with hit | hit
      · rw [hit]; rfl
      · exact ih it hit
    · rw [if_neg h]
      exact ih

/-- C6: multi-day event layout.  For events with pairwise-distinct ids (the
widget generates them from `Date.now()`) and a well-formed `endDate` (the
modal stores `undefined`, never an empty string), the display item of an
event `e` is in `getItemsForDate d` exactly when either `e` has an
`endDate` and `e.date ≤ d ≤ e.endDate` in string comparison, or `e` has no
`endDate` and `e.date = d`. -/
theorem calendar_event_on_date_iff (events : List CalendarEvent) (todos : TodoList)
    (today d : String) (e : CalendarEvent)
    (hnd : (events.map CalendarEvent.id).Nodup) (he : e ∈ events)
    (hwf : e.endDate ≠ some "") :
    displayOfEvent e ∈ getItemsForDate events todos today d ↔
      (match e.endDate with
       | some en => (jsLe e.date d && jsLe d en) = true
       | none => e.date = d) := by
  have hmatch : eventMatchesDate e d = true ↔
      (match e.endDate with
       | some en => (jsLe e.date d && jsLe d en) = true
       | none => e.date = d) := by
    rw [eventMatchesDate]
    cases hend : e.endDate with
    | none => simp
    | some en =>
      have hen : en ≠ "" := by
        intro h; exact hwf (by rw [hend, h])
      simp [hen]
  constructor
  · intro hmem
    rw [getItemsForDate, List.mem_append] at hmem
    rcases hmem with hmem | hmem
    · rw [List.mem_map] at hmem
      obtain ⟨e2, he2mem, he2eq⟩ := hmem
      rw [List.mem_filter] at he2mem
      have hid : e2.id = e.id := congrArg CalendarDisplayItem.id he2eq
      have he2e : e2 = e := List.inj_on_of_nodup_map hnd he2mem.1 he hid
      rw [← hmatch, ← he2e]
      exact he2mem.2
    · exfalso
      have := dueTodoItems_kind todos today d _ hmem
      exact DisplayKind.noConfusion this
  · intro hc
    rw [getItemsForDate, List.mem_append]
    left
    rw [List.mem_map]
    exact ⟨e, List.mem_filter.2 ⟨he, hmatch.2 hc⟩, rfl⟩

/-- Closed witness for the C6 layout theorem. -/
theorem calendar_event_on_date_iff_witness :
    displayOfEvent
        { id := "e1", date := "2024-01-02", endDate := some "2024-01-04"
          title := "trip", time := none, location := none, groupId := none } ∈
      getItemsForDate
        [{ id := "e1", date := "2024-01-02", endDate := some "2024-01-04"
           title := "trip", time := none, location := none, groupId := none }]
        .nil "2024-01-01" "2024-01-03" ↔
      (jsLe "2024-01-02" "2024-01-03" && jsLe "2024-01-03" "2024-01-04") = true :=
  calendar_event_on_date_iff
    [{ id := "e1", date := "2024-01-02", endDate := some "2024-01-04"
       title := "trip", time := none, location := none, groupId := none }]
    .nil "2024-01-01" "2024-01-03"
    { id := "e1", date := "2024-01-02", endDate := some "2024-01-04"
      title := "trip", time := none, location := none, groupId := none }
    (by simp) (by simp) (by simp)

/-- C7: swipe-to-delete.  When a swipe ends past the 120-pixel threshold,
exactly the entries whose id matches the active swipe are removed (the
swiped item) and every other entry is kept in order; at or below the
threshold the list is unchanged. -/
theorem swipe_delete_behaviour :
    (∀ (s : SwipeState) (pre post : List ReadingItem) (x : ReadingItem),
      swipeDeleteThreshold < |s.offsetX| → x.id = s.id →
      (∀ r ∈ pre, r.id ≠ s.id) → (∀ r ∈ post, r.id ≠ s.id) →
      processEnd (some s) (pre ++ x :: post) = pre ++ post) ∧
    (∀ (s : SwipeState) (readings : List ReadingItem),
      |s.offsetX| ≤ swipeDeleteThreshold → processEnd (some s) readings = readings) := by
  constructor
  · intro s pre post x hthr hx hpre hpost
    rw [processEnd, if_pos hthr, deleteReading, List.filter_append, List.filter_cons]
    rw [show (x.id != s.id) = false from by simp [hx]]
    rw [if_neg (by simp)]
    rw [List.filter_eq_self.2 (fun r hr => by simp [hpre r hr]),
      List.filter_eq_self.2 (fun r hr => by simp [hpost r hr])]
  · intro s readings hthr
    rw [processEnd, if_neg (by omega)]

/-- Closed witness for the C7 swipe theorem. -/
theorem swipe_delete_behaviour_witness :
    processEnd (some { id := "b", offsetX := -130 })
        [{ id := "a", title := "t1", url := "u1", status := "unread", createdAt := "" },
         { id := "b", title := "t2", url := "u2", status := "unread", createdAt := "" },
         { id := "c", title := "t3", url := "u3", status := "unread", createdAt := "" }] =
      [{ id := "a", title := "t1", url := "u1", status := "unread", createdAt := "" },
       { id := "c", title := "t3", url := "u3", status := "unread", createdAt := "" }] ∧
    processEnd (some { id := "b", offsetX := 120 })
        [{ id := "b", title := "t2", url := "u2", status := "unread", createdAt := "" }] =
      [{ id := "b", title := "t2", url := "u2", status := "unread", createdAt := "" }] :=
  ⟨swipe_delete_behaviour.1 { id := "b", offsetX := -130 }
      [{ id := "a", title := "t1", url := "u1", status := "unread", createdAt := "" }]
      [{ id := "c", title := "t3", url := "u3", status := "unread", createdAt := "" }]
      { id := "b", title := "t2", url := "u2", status := "unread", createdAt := "" }
      (by decide) rfl (by decide) (by decide),
   swipe_delete_behaviour.2 { id := "b", offsetX := 120 } _ (by decide)⟩

theorem spliceInsert_get? {α : Type} (l : List α) (n : Nat) (a : α)
    (h : n ≤ l.length) : (spliceInsert l n a).get? n = some a := by
  induction l generalizing n with
  | nil =>
    cases n with
    | zero => rfl
    | succ n => simp at h
  | cons b l ih =>
    cases n with
    | zero => rfl
    | succ n =>
      rw [spliceInsert]
      exact ih n (by simpa using h)

theorem spliceInsert_perm {α : Type} (l : List α) (n : Nat) (a : α) :
    (spliceInsert l n a).Perm (a :: l) := by
  induction l generalizing n with
  | nil =>
    cases n with
    | zero => exact List.Perm.refl _
    | succ n => exact List.Perm.refl _
  | cons b l ih =>
    cases n with
    | zero => exact List.Perm.refl _
    | succ n =>
      rw [spliceInsert]
      exact (List.Perm.cons b (ih n)).trans (List.Perm.swap a b l)

theorem perm_get_cons_eraseIdx {α : Type} :
    ∀ (l : List α) (i : Nat) (x : α), l.get? i = some x →
      l.Perm (x :: l.eraseIdx i) := by
  intro l
  induction l with
  | nil => intro i x h; exact Option.noConfusion h
  | cons y t ih =>
    intro i x h
    cases i with
    | zero =>
      rw [show (y :: t).get? 0 = some y from rfl, Option.some.injEq] at h
      rw [h, List.eraseIdx]
    | succ i =>
      rw [show (y :: t).get? (i + 1) = t.get? i from rfl] at h
      rw [List.eraseIdx]
      exact (List.Perm.cons y (ih i x h)).trans (List.Perm.swap x y _)

/-- C8: drag-to-reorder is a permutation.  For valid dragged and drop
indices, the reordered list holds the previously dragged entry at the drop
index and is a permutation of the original list (nothing is lost or
duplicated). -/
theorem reading_drag_drop_permutation (readings : List ReadingItem) (i j : Nat)
    (hi : i < readings.length) (hj : j < readings.length) :
    (handleDropReading readings (some i) j).get? j = readings.get? i ∧
    (handleDropReading readings (some i) j).Perm readings := by
  obtain ⟨x, hx⟩ : ∃ x, readings.get? i = some x := by
    cases hg : readings.get? i with
    | none => rw [List.get?_eq_none] at hg; omega
    | some x => exact ⟨x, rfl⟩
  rw [handleDropReading, hx]
  constructor
  · rw [spliceInsert_get? _ j x (by rw [List.length_eraseIdx, if_pos hi]; omega)]
  · exact (spliceInsert_perm _ j x).trans (perm_get_cons_eraseIdx readings i x hx).symm

/-- Closed witness for the C8 reorder theorem. -/
theorem reading_drag_drop_permutation_witness :
    (handleDropReading
        [{ id := "a", title := "t1", url := "u1", status := "unread", createdAt := "" },
         { id := "b", title := "t2", url := "u2", status := "unread", createdAt := "" },
         { id := "c", title := "t3", url := "u3", status := "unread", createdAt := "" }]
        (some 0) 2).get? 2 =
      ([{ id := "a", title := "t1", url := "u1", status := "unread", createdAt := "" },
        { id := "b", title := "t2", url := "u2", status := "unread", createdAt := "" },
        { id := "c", title := "t3", url := "u3", status := "unread", createdAt := "" }] :
        List ReadingItem).get? 0 ∧
    (handleDropReading
        [{ id := "a", title := "t1", url := "u1", status := "unread", createdAt := "" },
         { id := "b", title := "t2", url := "u2", status := "unread", createdAt := "" },
         { id := "c", title := "t3", url := "u3", status := "unread", createdAt := "" }]
        (some 0) 2).Perm
      [{ id := "a", title := "t1", url := "u1", status := "unread", createdAt := "" },
       { id := "b", title := "t2", url := "u2", status := "unread", createdAt := "" },
       { id := "c", title := "t3", url := "u3", status := "unread", createdAt := "" }] :=
  reading_drag_drop_permutation _ 0 2 (by decide) (by decide)

theorem monthLength_ge (leap : Bool) (m : Nat) : 28 ≤ monthLength leap m := by
  rw [monthLength.eq_def]
  split <;> first
    | omega
    | (cases leap <;> simp)

theorem jsLastDayOfMonth_ge (y : Int) (m : Int) : 28 ≤ jsLastDayOfMonth y m :=
  monthLength_ge _ _

theorem range_reverse_map {β : Type} (n : Nat) (h : Nat → β) :
    ((List.range n).reverse).map h = (List.range n).map (fun k => h (n - 1 - k)) := by
  conv_lhs => rw [List.range_eq_range', List.reverse_range']
  rw [List.map_map]
  apply List.map_congr_left
  intro a _
  simp

/-- C10: calendar grid shape.  For every year and month the grid's length
is a positive multiple of 7, and its cells are: exactly `firstDayOfWeek`
trailing days of the previous month in ascending order ending at its last
day, flagged not-current; the days `1 .. daysInMonth` of the viewed month
in order, flagged current; and just enough leading days `1, 2, ...` of the
next month to complete the last week, flagged not-current. -/
theorem calendar_grid_shape (y : Int) (m : Nat) :
    (calendarDays y m).length % 7 = 0 ∧
    0 < (calendarDays y m).length ∧
    (calendarDays y m).map (fun cd => (cd.date, cd.isCurrentMonth)) =
      ((List.range (firstDayOfWeek y m)).map
        (fun k => (jsLastDayOfMonth y m - (firstDayOfWeek y m - 1 - k), false))) ++
      ((List.range (jsLastDayOfMonth y (m + 1))).map (fun k => (k + 1, true))) ++
      ((List.range
          ((7 - (firstDayOfWeek y m + jsLastDayOfMonth y (m + 1)) % 7) % 7)).map
        (fun k => (k + 1, false))) := by
  have hdim : 28 ≤ jsLastDayOfMonth y (m + 1) := jsLastDayOfMonth_ge y (m + 1)
  rw [calendarDays]
  simp only [List.length_append, List.length_map, List.length_reverse,
    List.length_range]
  by_cases hrc : 7 - (firstDayOfWeek y m + jsLastDayOfMonth y (m + 1)) % 7 < 7
  · rw [if_pos hrc]
    have hpad : (7 - (firstDayOfWeek y m + jsLastDayOfMonth y (m + 1)) % 7) % 7 =
        7 - (firstDayOfWeek y m + jsLastDayOfMonth y (m + 1)) % 7 := by omega
    refine ⟨?_, ?_, ?_⟩
    · simp only [List.length_append, List.length_map, List.length_reverse,
        List.length_range]
      omega
    · simp only [List.length_append, List.length_map, List.length_reverse,
        List.length_range]
      omega
    · rw [hpad]
      simp only [List.map_append, List.map_map]
      congr 1
      congr 1
      rw [range_reverse_map]
      exact List.map_congr_left (fun a _ => rfl)
  · rw [if_neg hrc]
    have hmod : (firstDayOfWeek y m + jsLastDayOfMonth y (m + 1)) % 7 = 0 := by omega
    have hpad : (7 - (firstDayOfWeek y m + jsLastDayOfMonth y (m + 1)) % 7) % 7 = 0 := by
      omega
    refine ⟨?_, ?_, ?_⟩
    · simp only [List.length_append, List.length_map, List.length_reverse,
        List.length_range]
      omega
    · simp only [List.length_append, List.length_map, List.length_reverse,
        List.length_range]
      omega
    · rw [hpad]
      simp only [List.range_zero, List.map_nil, List.append_nil, List.map_append,
        List.map_map]
      congr 1
      rw [range_reverse_map]
      exact List.map_congr_left (fun a _ => rfl)

end Aerichan
